import Mathlib

/-!
Verification of the double-slit simulation library.

The Python source (double_slit_simulation.py) is embedded shallowly:
float arithmetic is modelled by real arithmetic, numpy arrays by lists of
reals, and the exceptions the code can actually raise by an `Except` error
type.  The analyzer's peak detection (scipy.signal.find_peaks with the
`height` and `distance` options) is embedded over an arbitrary linear
ordered field so that concrete runs can be evaluated over `ℚ`.
-/

namespace DoubleSlit

/-- The four physical parameters held by `DoubleslitSimulator.__init__`
(the wavelength lives inside the simulator's `WaveFunction`). -/
structure OpticalSetup where
  wavelength : ℝ
  slit_width : ℝ
  slit_separation : ℝ
  screen_distance : ℝ

/-- Source line `theta = np.arctan(y_positions / self.screen_distance)` (pointwise). -/
noncomputable def theta (s : OpticalSetup) (y : ℝ) : ℝ :=
  Real.arctan (y / s.screen_distance)

/-- Source line `beta = (np.pi * self.slit_width * np.sin(theta)) / self.wave.wavelength`. -/
noncomputable def beta (s : OpticalSetup) (y : ℝ) : ℝ :=
  Real.pi * s.slit_width * Real.sin (theta s y) / s.wavelength

/-- Source line `beta_safe = np.where(np.abs(beta) < 1e-10, 1e-10, beta)` (pointwise). -/
noncomputable def betaSafe (s : OpticalSetup) (y : ℝ) : ℝ :=
  if |beta s y| < 1e-10 then 1e-10 else beta s y

/-- Pointwise body of `single_slit_intensity`:
`intensity = (np.sin(beta_safe) / beta_safe) ** 2`. -/
noncomputable def singleSlitAt (s : OpticalSetup) (y : ℝ) : ℝ :=
  (Real.sin (betaSafe s y) / betaSafe s y) ^ 2

/-- Source line `delta = (np.pi * self.slit_separation * np.sin(theta)) / self.wave.wavelength`. -/
noncomputable def delta (s : OpticalSetup) (y : ℝ) : ℝ :=
  Real.pi * s.slit_separation * Real.sin (theta s y) / s.wavelength

/-- Pointwise body of `double_slit_intensity`: the recomputed single-slit
term times the interference term `(np.cos(delta)) ** 2`. -/
noncomputable def doubleSlitAt (s : OpticalSetup) (y : ℝ) : ℝ :=
  (Real.sin (betaSafe s y) / betaSafe s y) ^ 2 * Real.cos (delta s y) ^ 2

/-- Embedding of `single_slit_intensity` applied to an array of screen positions. -/
noncomputable def single_slit_intensity (s : OpticalSetup) (ys : List ℝ) : List ℝ :=
  ys.map (singleSlitAt s)

/-- Embedding of `double_slit_intensity` applied to an array of screen positions. -/
noncomputable def double_slit_intensity (s : OpticalSetup) (ys : List ℝ) : List ℝ :=
  ys.map (doubleSlitAt s)

/- ------------------------------------------------------------------ -/
/- Screen grid and normalization pipeline                              -/
/- ------------------------------------------------------------------ -/

/-- Embedding of `np.linspace(a, b, n)` with `endpoint=True`: for `n ≥ 2` the points are
`a + i*(b-a)/(n-1)` for `i < n-1` followed by exactly `b`; `[a]` for `n = 1`
and `[]` for `n = 0`. -/
noncomputable def linspace (a b : ℝ) : ℕ → List ℝ
  | 0 => []
  | 1 => [a]
  | m + 2 => ((List.range (m + 1)).map fun i : ℕ => a + (i : ℝ) * ((b - a) / (m + 1))) ++ [b]

/-- The exceptions this code can actually raise (both are Python
`ValueError`s): the explicit raise in `compare_with_theory` when no
experimental data is loaded, and the error numpy raises for
`np.max` of an empty array. -/
inductive PyErr where
  | noExperimentalData : PyErr
  | zeroSizeReduction : PyErr
deriving DecidableEq

/-- Maximum of a nonempty list of reals (`np.max` on nonempty input). -/
noncomputable def listMax : List ℝ → ℝ
  | [] => 0
  | x :: xs => xs.foldl max x

/-- Embedding of `np.max`: raises a zero-size-reduction `ValueError` on an empty array. -/
noncomputable def npMax : List ℝ → Except PyErr ℝ
  | [] => .error .zeroSizeReduction
  | x :: xs => .ok (xs.foldl max x)

/-- Line 159 of the source, `intensity / np.max(intensity)`
(the spec's `normalize` operation). -/
noncomputable def normalize (raw : List ℝ) : Except PyErr (List ℝ) :=
  (npMax raw).map fun m => raw.map fun v => v / m

/-- Intensity selection in `fraunhofer_diffraction`: the double-slit or
the single-slit raw pattern according to the `double_slit` flag. -/
noncomputable def raw_intensity (s : OpticalSetup) (double_slit : Bool) (ys : List ℝ) : List ℝ :=
  if double_slit then double_slit_intensity s ys else single_slit_intensity s ys

/-- Embedding of `fraunhofer_diffraction`: raw intensity normalized by its maximum. -/
noncomputable def fraunhofer_diffraction (s : OpticalSetup) (ys : List ℝ)
    (double_slit : Bool) : Except PyErr (List ℝ) :=
  normalize (raw_intensity s double_slit ys)

/-- Embedding of `simulate_experiment`: builds the grid with `np.linspace` and returns it
together with the normalized diffraction pattern. -/
noncomputable def simulate_experiment (s : OpticalSetup) (screen_width : ℝ)
    (resolution : ℕ) (double_slit : Bool) : Except PyErr (List ℝ × List ℝ) :=
  (fraunhofer_diffraction s (linspace (-screen_width / 2) (screen_width / 2) resolution)
      double_slit).map fun intensity =>
    (linspace (-screen_width / 2) (screen_width / 2) resolution, intensity)

/- ------------------------------------------------------------------ -/
/- Peak detection (scipy.signal.find_peaks with height and distance)   -/
/- ------------------------------------------------------------------ -/

section Analyzer

variable {α : Type*} [LinearOrderedField α]

/-- Inner `while` of scipy's `_local_maxima_1d`: starting at `i`, skip
forward over samples equal to `v` while the index stays below `imax`.
The fuel `imax - i` bounds its iteration count exactly. -/
def plateauEndAux (x : List α) (v : α) (imax : ℕ) : ℕ → ℕ → ℕ
  | 0, i => i
  | fuel + 1, i =>
    if i < imax ∧ x.getD i 0 = v then plateauEndAux x v imax fuel (i + 1) else i

/-- First index `≥ i` that leaves the plateau of value `v` (or hits `imax`). -/
def plateauEnd (x : List α) (v : α) (imax i : ℕ) : ℕ :=
  plateauEndAux x v imax (imax - i) i

/-- Main scan of scipy's `_local_maxima_1d`: walk `i` from 1 to `imax - 1`
(`imax = n - 1`), and at each strict rise look ahead over the plateau;
if the sample after the plateau is strictly lower, record the plateau
midpoint and resume after the plateau.  The fuel (called with `n`) bounds
the number of loop steps, each of which advances `i` by at least one, so it
never runs out before `i` reaches `imax`. -/
def localMaximaAux (x : List α) (imax : ℕ) : ℕ → ℕ → List ℕ
  | 0, _ => []
  | fuel + 1, i =>
    if i < imax then
      if x.getD (i - 1) 0 < x.getD i 0 then
        if x.getD (plateauEnd x (x.getD i 0) imax (i + 1)) 0 < x.getD i 0 then
          (i + (plateauEnd x (x.getD i 0) imax (i + 1) - 1)) / 2 ::
            localMaximaAux x imax fuel (plateauEnd x (x.getD i 0) imax (i + 1) + 1)
        else localMaximaAux x imax fuel (i + 1)
      else localMaximaAux x imax fuel (i + 1)
    else []

/-- All interior local maxima (plateau midpoints) of the signal. -/
def localMaxima (x : List α) : List ℕ :=
  localMaximaAux x (x.length - 1) x.length 1

/-- scipy's height condition `height <= x[peaks]` (keep-filter). -/
def selectByHeight (x : List α) (h : α) (ps : List ℕ) : List ℕ :=
  ps.filter fun p => decide (h ≤ x.getD p 0)

/-- Left `while` of `_select_by_peak_distance`: walk `k` down from `j - 1`
clearing `keep[k]` while `peaks[j] - peaks[k] < distance`. -/
def clearLeft (ps : List ℕ) (pj d : ℕ) : ℕ → List Bool → List Bool
  | 0, keep => if pj - ps.getD 0 0 < d then keep.set 0 false else keep
  | k + 1, keep =>
    if pj - ps.getD (k + 1) 0 < d then clearLeft ps pj d k (keep.set (k + 1) false)
    else keep

/-- Right `while` of `_select_by_peak_distance`: walk `k` up from `j + 1`
clearing `keep[k]` while `k < size` and `peaks[k] - peaks[j] < distance`.
Fuel (called with `size`) bounds the iteration count. -/
def clearRight (ps : List ℕ) (pj d size : ℕ) : ℕ → ℕ → List Bool → List Bool
  | 0, _, keep => keep
  | fuel + 1, k, keep =>
    if k < size ∧ ps.getD k 0 - pj < d then
      clearRight ps pj d size fuel (k + 1) (keep.set k false)
    else keep

/-- One iteration of `_select_by_peak_distance`'s main loop: if peak `j` is
still kept, clear every neighbour within `distance` on both sides. -/
def distStep (ps : List ℕ) (d : ℕ) (keep : List Bool) (j : ℕ) : List Bool :=
  if keep.getD j false = true then
    clearRight ps (ps.getD j 0) d ps.length ps.length (j + 1)
      (match j with
        | 0 => keep
        | j' + 1 => clearLeft ps (ps.getD j 0) d j' keep)
  else keep

/-- Insertion step of the index sort modelling `np.argsort(priority)`. -/
def argInsert (priority : List α) (i : ℕ) : List ℕ → List ℕ
  | [] => [i]
  | j :: rest =>
    if priority.getD i 0 ≤ priority.getD j 0 then i :: j :: rest
    else j :: argInsert priority i rest

/-- Embedding of `np.argsort(priority)`: indices sorted by ascending
priority.  For ties numpy's default introsort leaves the order unspecified;
this insertion sort picks one deterministic order, and every property proved
below holds for any processing order. -/
def argsort (priority : List α) : List ℕ :=
  (List.range priority.length).foldr (argInsert priority) []

/-- Embedding of scipy's peak distance selection: peaks are processed in order of decreasing
priority (`x[peaks]`); each still-kept peak suppresses all neighbours closer
than `distance`; surviving peaks are returned in position order. -/
def selectByDistance (x : List α) (ps : List ℕ) (d : ℕ) : List ℕ :=
  ((List.range ps.length).filter fun j =>
      (((argsort (ps.map fun p => x.getD p 0)).reverse).foldl (distStep ps d)
        (List.replicate ps.length true)).getD j false).map
    fun j => ps.getD j 0

/-- Embedding of `scipy.signal.find_peaks(x, height, distance)`: local maxima, filtered
by the height condition and then by distance-based suppression. -/
def find_peaks (x : List α) (height : α) (distance : ℕ) : List ℕ :=
  selectByDistance x (selectByHeight x height (localMaxima x)) distance

/-- Embedding of `InterferenceAnalyzer.find_peaks_and_minima`:
`signal.find_peaks(intensity, height=0.1, distance=10)` for the peaks and
`signal.find_peaks(-intensity, height=-0.9, distance=10)` for the minima. -/
def find_peaks_and_minima (x : List α) : List ℕ × List ℕ :=
  (find_peaks x (1/10) 10, find_peaks (x.map fun v => -v) (-(9/10)) 10)

/-- A maximal plateau: constant run `[l, r]` with a strict rise into `l`
and a strict drop after `r` (scipy's condition for recording a peak). -/
def IsPlateauMax (x : List α) (l r : ℕ) : Prop :=
  0 < l ∧ r + 1 < x.length ∧ (∀ j, l ≤ j → j ≤ r → x.getD j 0 = x.getD l 0) ∧
  x.getD (l - 1) 0 < x.getD l 0 ∧ x.getD (r + 1) 0 < x.getD l 0

end Analyzer

/- ------------------------------------------------------------------ -/
/- InterferenceAnalyzer.compare_with_theory                            -/
/- ------------------------------------------------------------------ -/

/-- Embedding of `np.mean`. -/
noncomputable def np_mean (l : List ℝ) : ℝ := l.sum / l.length

/-- The off-diagonal entry of `np.corrcoef(a, b)`: centered dot product
over the product of the centered norms. -/
noncomputable def corrcoef (a b : List ℝ) : ℝ :=
  (List.zipWith (fun u v => u * v) (a.map fun t => t - np_mean a)
      (b.map fun t => t - np_mean b)).sum /
    (Real.sqrt (((a.map fun t => t - np_mean a).map fun u => u ^ 2).sum) *
      Real.sqrt (((b.map fun t => t - np_mean b).map fun u => u ^ 2).sum))

/-- Embedding of `np.sqrt(np.mean((experimental - theoretical)**2))`. -/
noncomputable def rms_of (a b : List ℝ) : ℝ :=
  Real.sqrt (np_mean (List.zipWith (fun u v => (u - v) ^ 2) a b))

/-- The dictionary returned by `compare_with_theory`. -/
structure ComparisonResult where
  correlation : ℝ
  rms_error : ℝ
  experimental_peaks : List ℕ
  theoretical_peaks : List ℕ
  experimental_minima : List ℕ
  theoretical_minima : List ℕ

/-- Embedding of `InterferenceAnalyzer.compare_with_theory`: raises the no-data
`ValueError` when `self.experimental_data is None`; otherwise regenerates
the theoretical pattern at `resolution = len(experimental_data)`, stores it
(first component of the returned pair) and builds the comparison record. -/
noncomputable def compare_with_theory (experimental : Option (List ℝ)) (s : OpticalSetup)
    (screen_width : ℝ) : Except PyErr (List ℝ × ComparisonResult) :=
  match experimental with
  | none => .error .noExperimentalData
  | some e =>
    (simulate_experiment s screen_width e.length true).map fun yt =>
      (yt.2, ⟨corrcoef e yt.2, rms_of e yt.2,
        (find_peaks_and_minima e).1, (find_peaks_and_minima yt.2).1,
        (find_peaks_and_minima e).2, (find_peaks_and_minima yt.2).2⟩)

/-- Modelled from the spec: the spec's `compare(experimental, theoretical)`
receives two sequences and fails with a LengthMismatchError when the lengths
differ.  No such interface or error exists in the code, whose
`compare_with_theory` receives a simulator instead of a theoretical
sequence; this definition only serves to state the divergence. -/
inductive SpecErr where
  | lengthMismatch : SpecErr
deriving DecidableEq

/-- Modelled from the spec: length guard of the spec-level `compare`. -/
def compareSpec (experimental theoretical : List ℝ) : Except SpecErr Unit :=
  if experimental.length = theoretical.length then .ok () else .error .lengthMismatch

/- ------------------------------------------------------------------ -/
/- Claim C2 and C3                                                     -/
/- ------------------------------------------------------------------ -/

/-- Claim C2: at every grid position `y`, the raw double-slit intensity equals
the raw single-slit intensity at `y` (same beta, including the same epsilon
substitution) multiplied by `cos^2(delta)`, where
`delta = pi * slit_separation * sin(atan(y / screen_distance)) / wavelength`. -/
theorem double_slit_eq_single_mul_interference (s : OpticalSetup)
    (hD : 0 < s.screen_distance) (y : ℝ) :
    doubleSlitAt s y = singleSlitAt s y * Real.cos
      (Real.pi * s.slit_separation *
        Real.sin (Real.arctan (y / s.screen_distance)) / s.wavelength) ^ 2 :=
  rfl

/-- Witness for C2 at a concrete valid setup and grid position. -/
theorem double_slit_eq_single_mul_interference_witness :
    (0:ℝ) < (OpticalSetup.mk 1 1 1 1).screen_distance ∧
    doubleSlitAt (OpticalSetup.mk 1 1 1 1) 0 =
      singleSlitAt (OpticalSetup.mk 1 1 1 1) 0 * Real.cos
        (Real.pi * (OpticalSetup.mk 1 1 1 1).slit_separation *
          Real.sin (Real.arctan (0 / (OpticalSetup.mk 1 1 1 1).screen_distance)) /
          (OpticalSetup.mk 1 1 1 1).wavelength) ^ 2 :=
  ⟨by norm_num, double_slit_eq_single_mul_interference (OpticalSetup.mk 1 1 1 1) (by norm_num) 0⟩

lemma beta_at_zero (s : OpticalSetup) : beta s 0 = 0 := by
  unfold beta theta
  rw [zero_div, Real.arctan_zero, Real.sin_zero, mul_zero, zero_div]

lemma betaSafe_at_zero (s : OpticalSetup) : betaSafe s 0 = 1e-10 := by
  unfold betaSafe
  rw [beta_at_zero, abs_zero]
  norm_num

lemma sin_eps_div_eps_sq_lt_one : (Real.sin 1e-10 / 1e-10) ^ 2 < 1 := by
  have heps : (0:ℝ) < 1e-10 := by norm_num
  have hlt : Real.sin 1e-10 < 1e-10 := Real.sin_lt heps
  have hpos : 0 < Real.sin 1e-10 := by
    apply Real.sin_pos_of_pos_of_lt_pi heps
    have := Real.pi_gt_three
    norm_num
    linarith
  have hq1 : Real.sin 1e-10 / 1e-10 < 1 := (div_lt_one heps).mpr hlt
  have hq0 : 0 < Real.sin 1e-10 / 1e-10 := div_pos hpos heps
  nlinarith

/-- Claim C3: `single_slit_intensity` computes `theta = atan(y/screen_distance)`,
`beta = pi * slit_width * sin(theta) / wavelength`, substitutes `1e-10` for
`beta` whenever `|beta| < 1e-10` and keeps `beta` otherwise, and returns
`(sin(beta_safe)/beta_safe)^2`; the divisor is never zero, and the value at
the exact center is the epsilon-substituted value
`(sin(1e-10)/1e-10)^2`, which is slightly less than 1 rather than the
analytic limit 1. -/
theorem single_slit_epsilon_guard (s : OpticalSetup) (hD : 0 < s.screen_distance) :
    (∀ y : ℝ,
      beta s y = Real.pi * s.slit_width *
        Real.sin (Real.arctan (y / s.screen_distance)) / s.wavelength ∧
      (|beta s y| < 1e-10 → betaSafe s y = 1e-10) ∧
      (¬ |beta s y| < 1e-10 → betaSafe s y = beta s y) ∧
      betaSafe s y ≠ 0 ∧
      singleSlitAt s y = (Real.sin (betaSafe s y) / betaSafe s y) ^ 2) ∧
    singleSlitAt s 0 = (Real.sin 1e-10 / 1e-10) ^ 2 ∧
    singleSlitAt s 0 < 1 := by
  refine ⟨fun y => ⟨rfl, ?_, ?_, ?_, rfl⟩, ?_, ?_⟩
  · intro h; unfold betaSafe; rw [if_pos h]
  · intro h; unfold betaSafe; rw [if_neg h]
  · unfold betaSafe
    by_cases h : |beta s y| < 1e-10
    · rw [if_pos h]; norm_num
    · rw [if_neg h]
      intro hzero
      apply h
      rw [hzero, abs_zero]
      norm_num
  · unfold singleSlitAt
    rw [betaSafe_at_zero]
  · unfold singleSlitAt
    rw [betaSafe_at_zero]
    exact sin_eps_div_eps_sq_lt_one

/-- Witness for C3 at a concrete valid setup. -/
theorem single_slit_epsilon_guard_witness :
    (0:ℝ) < (OpticalSetup.mk 1 1 1 1).screen_distance ∧
    singleSlitAt (OpticalSetup.mk 1 1 1 1) 0 < 1 :=
  ⟨by norm_num, (single_slit_epsilon_guard (OpticalSetup.mk 1 1 1 1) (by norm_num)).2.2⟩

lemma npMax_eq_ok (l : List ℝ) (h : l ≠ []) : npMax l = .ok (listMax l) := by
  cases l with
  | nil => exact absurd rfl h
  | cons x xs => rfl

lemma foldl_max_div (m : ℝ) (hm : 0 < m) (xs : List ℝ) :
    ∀ b : ℝ, (xs.map fun v => v / m).foldl max (b / m) = xs.foldl max b / m := by
  induction xs with
  | nil => intro b; rfl
  | cons x xs ih =>
    intro b
    have hmax : max (b / m) (x / m) = max b x / m := by
      rw [div_eq_mul_inv, div_eq_mul_inv, div_eq_mul_inv,
        ← max_mul_of_nonneg _ _ (le_of_lt (inv_pos.mpr hm))]
    simp only [List.map_cons, List.foldl_cons, hmax, ih]

lemma listMax_map_div (l : List ℝ) (hl : l ≠ []) (m : ℝ) (hm : 0 < m) :
    listMax (l.map fun v => v / m) = listMax l / m := by
  cases l with
  | nil => exact absurd rfl hl
  | cons x xs => exact foldl_max_div m hm xs x

/- ------------------------------------------------------------------ -/
/- Claim C5                                                            -/
/- ------------------------------------------------------------------ -/

/-- Counterexample for C5 as stated: on a raw array whose maximum is
`-1 ≤ 0`, the code does not fail with any error; it divides by the maximum
and returns `[1, 2]`. -/
theorem normalize_no_degenerate_guard_counterexample :
    listMax [(-1 : ℝ), -2] ≤ 0 ∧ normalize [(-1 : ℝ), -2] = .ok [1, 2] := by
  constructor
  · show max (-1 : ℝ) (-2) ≤ 0
    norm_num
  · show Except.ok ([(-1 : ℝ), -2].map fun v => v / max (-1 : ℝ) (-2)) = _
    norm_num

/-- Claim C5, amended: `normalize` performs no degenerate-input guard.  For
every nonempty raw array it returns the array divided elementwise by the
array's maximum (even when that maximum is ≤ 0), and whenever the maximum is
positive the maximum of the result is exactly 1. -/
theorem normalize_divides_by_max (raw : List ℝ) (h : raw ≠ []) :
    normalize raw = .ok (raw.map fun v => v / listMax raw) ∧
    (0 < listMax raw → listMax (raw.map fun v => v / listMax raw) = 1) := by
  constructor
  · unfold normalize
    rw [npMax_eq_ok raw h]
    rfl
  · intro hpos
    rw [listMax_map_div raw h (listMax raw) hpos]
    exact div_self (ne_of_gt hpos)

/-- Witness for C5 (amended) on a concrete nonempty array. -/
theorem normalize_divides_by_max_witness :
    ([(2:ℝ), 1] ≠ []) ∧
    (normalize [(2:ℝ), 1] = .ok ([(2:ℝ), 1].map fun v => v / listMax [(2:ℝ), 1]) ∧
      (0 < listMax [(2:ℝ), 1] → listMax ([(2:ℝ), 1].map fun v => v / listMax [(2:ℝ), 1]) = 1)) :=
  ⟨by simp, normalize_divides_by_max [(2:ℝ), 1] (by simp)⟩

/- ------------------------------------------------------------------ -/
/- Grid lemmas and the shape of simulate_experiment                    -/
/- ------------------------------------------------------------------ -/

lemma linspace_length (a b : ℝ) (n : ℕ) : (linspace a b n).length = n := by
  match n with
  | 0 => rfl
  | 1 => rfl
  | m + 2 =>
    rw [linspace, List.length_append, List.length_map, List.length_range]
    rfl

lemma raw_intensity_length (s : OpticalSetup) (mode : Bool) (ys : List ℝ) :
    (raw_intensity s mode ys).length = ys.length := by
  unfold raw_intensity single_slit_intensity double_slit_intensity
  cases mode <;> simp

/-- Shape of every successful run: for `resolution ≥ 1` the call returns the
linspace grid and the normalized raw intensity, both of length `resolution`,
with no exception. -/
lemma simulate_ok (s : OpticalSetup) (w : ℝ) (n : ℕ) (mode : Bool) (hn : 1 ≤ n) :
    simulate_experiment s w n mode =
      .ok (linspace (-w / 2) (w / 2) n,
        (raw_intensity s mode (linspace (-w / 2) (w / 2) n)).map
          fun v => v / listMax (raw_intensity s mode (linspace (-w / 2) (w / 2) n))) ∧
    (linspace (-w / 2) (w / 2) n).length = n ∧
    ((raw_intensity s mode (linspace (-w / 2) (w / 2) n)).map
      fun v => v / listMax (raw_intensity s mode (linspace (-w / 2) (w / 2) n))).length = n := by
  have hne : raw_intensity s mode (linspace (-w / 2) (w / 2) n) ≠ [] := by
    intro h
    have := raw_intensity_length s mode (linspace (-w / 2) (w / 2) n)
    rw [h, linspace_length] at this
    simp at this
    omega
  refine ⟨?_, linspace_length _ _ _, ?_⟩
  · unfold simulate_experiment fraunhofer_diffraction normalize
    rw [npMax_eq_ok _ hne]
    rfl
  · rw [List.length_map, raw_intensity_length, linspace_length]

/- ------------------------------------------------------------------ -/
/- Claim C6                                                            -/
/- ------------------------------------------------------------------ -/

/-- Counterexample for C6 as stated: calls with `resolution = 1` and with
`screen_width = 0` both succeed (no `InvalidParameterError`, which does not
exist in the code) and return arrays. -/
theorem simulate_no_validation_counterexample :
    (simulate_experiment (OpticalSetup.mk 1 1 1 1) (1 / 100) 1 true).isOk = true ∧
    (simulate_experiment (OpticalSetup.mk 1 1 1 1) 0 2 true).isOk = true := by
  constructor
  · rw [(simulate_ok (OpticalSetup.mk 1 1 1 1) (1 / 100) 1 true (by omega)).1]
    rfl
  · rw [(simulate_ok (OpticalSetup.mk 1 1 1 1) 0 2 true (by omega)).1]
    rfl

/-- Claim C6, amended: `simulate_experiment` performs no parameter
validation; for every setup, every `screen_width` (including 0) and every
`resolution ≥ 1` (including 1) it returns, without raising, a grid and an
intensity array of length exactly `resolution`. -/
theorem simulate_no_parameter_validation (s : OpticalSetup) (w : ℝ) (n : ℕ)
    (mode : Bool) (hn : 1 ≤ n) :
    ∃ grid intensity, simulate_experiment s w n mode = .ok (grid, intensity) ∧
      grid.length = n ∧ intensity.length = n := by
  obtain ⟨hok, hg, hi⟩ := simulate_ok s w n mode hn
  exact ⟨_, _, hok, hg, hi⟩

/-- Witness for C6 (amended) at `resolution = 1`, `screen_width = 0`. -/
theorem simulate_no_parameter_validation_witness :
    1 ≤ 1 ∧ ∃ grid intensity,
      simulate_experiment (OpticalSetup.mk 1 1 1 1) 0 1 false = .ok (grid, intensity) ∧
      grid.length = 1 ∧ intensity.length = 1 :=
  ⟨le_refl 1, simulate_no_parameter_validation (OpticalSetup.mk 1 1 1 1) 0 1 false (le_refl 1)⟩

/- ------------------------------------------------------------------ -/
/- Claim C4                                                            -/
/- ------------------------------------------------------------------ -/

lemma theta_neg (s : OpticalSetup) (y : ℝ) : theta s (-y) = -theta s y := by
  unfold theta
  rw [neg_div, Real.arctan_neg]

lemma beta_neg (s : OpticalSetup) (y : ℝ) : beta s (-y) = -beta s y := by
  unfold beta
  rw [theta_neg, Real.sin_neg]
  ring

lemma delta_neg (s : OpticalSetup) (y : ℝ) : delta s (-y) = -delta s y := by
  unfold delta
  rw [theta_neg, Real.sin_neg]
  ring

lemma singleSlitAt_neg (s : OpticalSetup) (y : ℝ) : singleSlitAt s (-y) = singleSlitAt s y := by
  unfold singleSlitAt betaSafe
  rw [beta_neg, abs_neg]
  by_cases h : |beta s y| < 1e-10
  · rw [if_pos h, if_pos h]
  · rw [if_neg h, if_neg h, Real.sin_neg, neg_div_neg_eq]

lemma doubleSlitAt_neg (s : OpticalSetup) (y : ℝ) : doubleSlitAt s (-y) = doubleSlitAt s y := by
  unfold doubleSlitAt betaSafe
  rw [beta_neg, abs_neg, delta_neg, Real.cos_neg]
  by_cases h : |beta s y| < 1e-10
  · rw [if_pos h, if_pos h]
  · rw [if_neg h, if_neg h, Real.sin_neg, neg_div_neg_eq]

lemma getD_map_at (f : ℝ → ℝ) (l : List ℝ) (i : ℕ) (h : i < l.length) :
    (l.map f).getD i 0 = f (l.getD i 0) := by
  rw [List.getD_eq_getElem _ 0 (by simpa using h), List.getD_eq_getElem _ 0 h]
  simp

/-- Claim C4: on a grid symmetric about 0 (`grid[i] = -grid[N-1-i]`), the
outputs of both `single_slit_intensity` and `double_slit_intensity` are
mirror-symmetric: `intensity[i] = intensity[N-1-i]` holds exactly for every
index (hence within `1e-9`, and exactly at the center of an odd-length
grid). -/
theorem intensity_symmetric (s : OpticalSetup) (grid : List ℝ) (n : ℕ)
    (hlen : grid.length = n)
    (hsym : ∀ i, i < n → grid.getD i 0 = -(grid.getD (n - 1 - i) 0)) :
    ∀ i, i < n →
      ((single_slit_intensity s grid).getD i 0
          = (single_slit_intensity s grid).getD (n - 1 - i) 0 ∧
        |(single_slit_intensity s grid).getD i 0
          - (single_slit_intensity s grid).getD (n - 1 - i) 0| ≤ 1e-9) ∧
      ((double_slit_intensity s grid).getD i 0
          = (double_slit_intensity s grid).getD (n - 1 - i) 0 ∧
        |(double_slit_intensity s grid).getD i 0
          - (double_slit_intensity s grid).getD (n - 1 - i) 0| ≤ 1e-9) := by
  intro i hi
  have hi' : n - 1 - i < n := by omega
  have h1 : (single_slit_intensity s grid).getD i 0
      = (single_slit_intensity s grid).getD (n - 1 - i) 0 := by
    unfold single_slit_intensity
    rw [getD_map_at _ _ i (by omega), getD_map_at _ _ (n - 1 - i) (by omega),
      hsym i hi, singleSlitAt_neg]
  have h2 : (double_slit_intensity s grid).getD i 0
      = (double_slit_intensity s grid).getD (n - 1 - i) 0 := by
    unfold double_slit_intensity
    rw [getD_map_at _ _ i (by omega), getD_map_at _ _ (n - 1 - i) (by omega),
      hsym i hi, doubleSlitAt_neg]
  refine ⟨⟨h1, ?_⟩, ⟨h2, ?_⟩⟩
  · rw [h1, sub_self, abs_zero]; norm_num
  · rw [h2, sub_self, abs_zero]; norm_num

/-- Witness for C4 on the symmetric grid `[-1, 0, 1]`. -/
theorem intensity_symmetric_witness :
    (single_slit_intensity (OpticalSetup.mk 1 1 1 1) [-1, 0, 1]).getD 0 0
      = (single_slit_intensity (OpticalSetup.mk 1 1 1 1) [-1, 0, 1]).getD 2 0 ∧
    (double_slit_intensity (OpticalSetup.mk 1 1 1 1) [-1, 0, 1]).getD 0 0
      = (double_slit_intensity (OpticalSetup.mk 1 1 1 1) [-1, 0, 1]).getD 2 0 := by
  have h := intensity_symmetric (OpticalSetup.mk 1 1 1 1) [-1, 0, 1] 3 (by simp)
    (by
      intro i hi
      interval_cases i <;>
        simp [List.getD_cons_zero, List.getD_cons_succ]) 0 (by omega)
  exact ⟨h.1.1, h.2.1⟩

section AnalyzerLemmas

variable {α : Type*} [LinearOrderedField α]

lemma plateauEndAux_ge (x : List α) (v : α) (imax : ℕ) :
    ∀ fuel i, i ≤ plateauEndAux x v imax fuel i := by
  intro fuel
  induction fuel with
  | zero => intro i; exact le_refl i
  | succ fuel ih =>
    intro i
    simp only [plateauEndAux]
    by_cases h : i < imax ∧ x.getD i 0 = v
    · rw [if_pos h]
      exact le_trans (by omega) (ih (i + 1))
    · rw [if_neg h]

lemma plateauEndAux_le (x : List α) (v : α) (imax : ℕ) :
    ∀ fuel i, i ≤ imax → plateauEndAux x v imax fuel i ≤ imax := by
  intro fuel
  induction fuel with
  | zero => intro i hi; exact hi
  | succ fuel ih =>
    intro i hi
    simp only [plateauEndAux]
    by_cases h : i < imax ∧ x.getD i 0 = v
    · rw [if_pos h]
      exact ih (i + 1) (by omega)
    · rw [if_neg h]
      exact hi

lemma plateauEndAux_plateau (x : List α) (v : α) (imax : ℕ) :
    ∀ fuel i j, i ≤ j → j < plateauEndAux x v imax fuel i → x.getD j 0 = v := by
  intro fuel
  induction fuel with
  | zero =>
    intro i j hij hj
    simp only [plateauEndAux] at hj
    omega
  | succ fuel ih =>
    intro i j hij hj
    simp only [plateauEndAux] at hj
    by_cases h : i < imax ∧ x.getD i 0 = v
    · rw [if_pos h] at hj
      rcases Nat.eq_or_lt_of_le hij with rfl | hij'
      · exact h.2
      · exact ih (i + 1) j (by omega) hj
    · rw [if_neg h] at hj
      omega

lemma plateauEnd_ge (x : List α) (v : α) (imax i : ℕ) : i ≤ plateauEnd x v imax i :=
  plateauEndAux_ge x v imax (imax - i) i

lemma plateauEnd_le (x : List α) (v : α) (imax i : ℕ) (h : i ≤ imax) :
    plateauEnd x v imax i ≤ imax :=
  plateauEndAux_le x v imax (imax - i) i h

lemma plateauEnd_plateau (x : List α) (v : α) (imax i j : ℕ) (hij : i ≤ j)
    (hj : j < plateauEnd x v imax i) : x.getD j 0 = v :=
  plateauEndAux_plateau x v imax (imax - i) i j hij hj

lemma localMaximaAux_sound (x : List α) (imax : ℕ) (hmax : imax + 1 ≤ x.length) :
    ∀ fuel i, 1 ≤ i →
      (∀ m ∈ localMaximaAux x imax fuel i,
        i ≤ m ∧ ∃ l r, l ≤ m ∧ m ≤ r ∧ IsPlateauMax x l r) ∧
      (localMaximaAux x imax fuel i).Pairwise (· < ·) := by
  intro fuel
  induction fuel with
  | zero =>
    intro i hi
    constructor
    · intro m hm
      simp [localMaximaAux] at hm
    · simp [localMaximaAux]
  | succ fuel ih =>
    intro i hi
    simp only [localMaximaAux]
    by_cases h1 : i < imax
    · rw [if_pos h1]
      by_cases h2 : x.getD (i - 1) 0 < x.getD i 0
      · rw [if_pos h2]
        by_cases h3 : x.getD (plateauEnd x (x.getD i 0) imax (i + 1)) 0 < x.getD i 0
        · rw [if_pos h3]
          have hge : i + 1 ≤ plateauEnd x (x.getD i 0) imax (i + 1) :=
            plateauEnd_ge x (x.getD i 0) imax (i + 1)
          have hle : plateauEnd x (x.getD i 0) imax (i + 1) ≤ imax :=
            plateauEnd_le x (x.getD i 0) imax (i + 1) (by omega)
          obtain ⟨hmem, hpw⟩ := ih (plateauEnd x (x.getD i 0) imax (i + 1) + 1) (by omega)
          constructor
          · intro m hm
            rcases List.mem_cons.mp hm with rfl | hm'
            · refine ⟨by omega, i, plateauEnd x (x.getD i 0) imax (i + 1) - 1,
                by omega, by omega, by omega, by omega, ?_, h2, ?_⟩
              · intro j hj1 hj2
                rcases Nat.eq_or_lt_of_le hj1 with rfl | hj1'
                · rfl
                · exact plateauEnd_plateau x (x.getD i 0) imax (i + 1) j (by omega) (by omega)
              · rw [show plateauEnd x (x.getD i 0) imax (i + 1) - 1 + 1
                  = plateauEnd x (x.getD i 0) imax (i + 1) from by omega]
                exact h3
            · obtain ⟨hm1, hrest⟩ := hmem m hm'
              exact ⟨by omega, hrest⟩
          · refine List.pairwise_cons.mpr ⟨?_, hpw⟩
            intro m hm
            have := (hmem m hm).1
            omega
        · rw [if_neg h3]
          obtain ⟨hmem, hpw⟩ := ih (i + 1) (by omega)
          exact ⟨fun m hm => ⟨by have := (hmem m hm).1; omega, (hmem m hm).2⟩, hpw⟩
      · rw [if_neg h2]
        obtain ⟨hmem, hpw⟩ := ih (i + 1) (by omega)
        exact ⟨fun m hm => ⟨by have := (hmem m hm).1; omega, (hmem m hm).2⟩, hpw⟩
    · rw [if_neg h1]
      constructor
      · intro m hm
        simp at hm
      · exact List.Pairwise.nil

lemma localMaxima_sound (x : List α) :
    (∀ m ∈ localMaxima x, ∃ l r, l ≤ m ∧ m ≤ r ∧ IsPlateauMax x l r) ∧
    (localMaxima x).Pairwise (· < ·) := by
  unfold localMaxima
  rcases Nat.eq_zero_or_pos x.length with h0 | hpos
  · rw [h0]
    constructor
    · intro m hm
      simp [localMaximaAux] at hm
    · simp [localMaximaAux]
  · obtain ⟨hmem, hpw⟩ :=
      localMaximaAux_sound x (x.length - 1) (by omega) x.length 1 (le_refl 1)
    exact ⟨fun m hm => (hmem m hm).2, hpw⟩

lemma plateau_neighbors (x : List α) (m l r : ℕ) (hl : l ≤ m) (hr : m ≤ r)
    (hp : IsPlateauMax x l r) :
    0 < m ∧ m + 1 < x.length ∧
    x.getD (m - 1) 0 ≤ x.getD m 0 ∧ x.getD (m + 1) 0 ≤ x.getD m 0 := by
  obtain ⟨hl0, hrlen, hconst, hedgeL, hedgeR⟩ := hp
  have hxm : x.getD m 0 = x.getD l 0 := hconst m hl hr
  refine ⟨by omega, by omega, ?_, ?_⟩
  · rcases Nat.eq_or_lt_of_le hl with rfl | hlm
    · rw [hxm]
      exact le_of_lt hedgeL
    · have h := hconst (m - 1) (by omega) (by omega)
      rw [h, hxm]
  · rcases Nat.eq_or_lt_of_le hr with rfl | hmr
    · rw [hxm]
      exact le_of_lt hedgeR
    · have h := hconst (m + 1) (by omega) (by omega)
      rw [h, hxm]

lemma getD_map_general {β γ : Type*} (d : β) (e : γ) (f : β → γ) (l : List β) (i : ℕ)
    (h : i < l.length) : (l.map f).getD i e = f (l.getD i d) := by
  rw [List.getD_eq_getElem _ e (by simpa using h), List.getD_eq_getElem _ d h]
  simp

lemma plateau_disjoint (x : List α) (m l r l' r' : ℕ)
    (h1 : IsPlateauMax x l r) (hl : l ≤ m) (hr : m ≤ r)
    (h2 : IsPlateauMax (x.map fun v => -v) l' r') (hl' : l' ≤ m) (hr' : m ≤ r') :
    False := by
  obtain ⟨hl0, hrlen, hconst, hedgeL, hedgeR⟩ := h1
  obtain ⟨hl0', hrlen', hconst', hedgeL', hedgeR'⟩ := h2
  rw [List.length_map] at hrlen'
  have hneg : ∀ k, k < x.length → (x.map fun v => -v).getD k 0 = -(x.getD k 0) := by
    intro k hk
    exact getD_map_general 0 0 _ x k hk
  have hconstx : ∀ j, l' ≤ j → j ≤ r' → x.getD j 0 = x.getD l' 0 := by
    intro j hj1 hj2
    have h := hconst' j hj1 hj2
    rw [hneg j (by omega), hneg l' (by omega)] at h
    exact neg_injective h
  have hL' : x.getD l' 0 < x.getD (l' - 1) 0 := by
    have h := hedgeL'
    rw [hneg (l' - 1) (by omega), hneg l' (by omega)] at h
    exact neg_lt_neg_iff.mp h
  have hm1 : x.getD m 0 = x.getD l 0 := hconst m hl hr
  have hm2 : x.getD m 0 = x.getD l' 0 := hconstx m hl' hr'
  rcases lt_trichotomy l l' with hc | hc | hc
  · have hj : x.getD (l' - 1) 0 = x.getD l 0 := hconst (l' - 1) (by omega) (by omega)
    rw [hj, ← hm1, hm2] at hL'
    exact lt_irrefl _ hL'
  · subst hc
    rw [← hm1, hm2] at hedgeL
    exact absurd hedgeL (not_lt_of_lt hL')
  · have hj : x.getD (l - 1) 0 = x.getD l' 0 := hconstx (l - 1) (by omega) (by omega)
    rw [hj, ← hm2, hm1] at hedgeL
    exact lt_irrefl _ hedgeL

lemma set_false_getD_mono (keep : List Bool) (k m : ℕ)
    (h : (keep.set k false).getD m false = true) : keep.getD m false = true := by
  rcases eq_or_ne k m with rfl | hne
  · by_cases hk : k < keep.length
    · rw [List.getD_eq_getElem?_getD, List.getElem?_set_self hk] at h
      simp at h
    · rw [List.getD_eq_getElem?_getD,
        List.getElem?_eq_none (by simpa using hk)] at h
      simp at h
  · rw [List.getD_eq_getElem?_getD, List.getElem?_set_ne hne] at h
    rw [List.getD_eq_getElem?_getD]
    exact h

lemma getD_set_self_false (keep : List Bool) (k : ℕ) :
    (keep.set k false).getD k false = false := by
  by_cases hk : k < keep.length
  · rw [List.getD_eq_getElem?_getD, List.getElem?_set_self hk]
    rfl
  · rw [List.getD_eq_getElem?_getD, List.getElem?_eq_none (by simpa using hk)]
    rfl

lemma clearLeft_mono (ps : List ℕ) (pj d : ℕ) :
    ∀ k (keep : List Bool) m,
      (clearLeft ps pj d k keep).getD m false = true → keep.getD m false = true := by
  intro k
  induction k with
  | zero =>
    intro keep m h
    simp only [clearLeft] at h
    split at h
    · exact set_false_getD_mono _ _ _ h
    · exact h
  | succ k ih =>
    intro keep m h
    simp only [clearLeft] at h
    split at h
    · exact set_false_getD_mono _ _ _ (ih _ _ h)
    · exact h

lemma clearRight_mono (ps : List ℕ) (pj d size : ℕ) :
    ∀ fuel k (keep : List Bool) m,
      (clearRight ps pj d size fuel k keep).getD m false = true →
      keep.getD m false = true := by
  intro fuel
  induction fuel with
  | zero => intro k keep m h; exact h
  | succ fuel ih =>
    intro k keep m h
    simp only [clearRight] at h
    split at h
    · exact set_false_getD_mono _ _ _ (ih _ _ _ h)
    · exact h

lemma distStep_mono (ps : List ℕ) (d : ℕ) (keep : List Bool) (j m : ℕ)
    (h : (distStep ps d keep j).getD m false = true) : keep.getD m false = true := by
  unfold distStep at h
  split at h
  · have h1 := clearRight_mono ps (ps.getD j 0) d ps.length ps.length (j + 1) _ m h
    cases j with
    | zero => exact h1
    | succ j' => exact clearLeft_mono ps (ps.getD (j' + 1) 0) d j' keep m h1
  · exact h

lemma foldl_distStep_mono (ps : List ℕ) (d : ℕ) :
    ∀ (order : List ℕ) (keep : List Bool) m,
      (order.foldl (distStep ps d) keep).getD m false = true →
      keep.getD m false = true := by
  intro order
  induction order with
  | nil => intro keep m h; exact h
  | cons o rest ih =>
    intro keep m h
    rw [List.foldl_cons] at h
    exact distStep_mono ps d keep o m (ih _ m h)

lemma clearLeft_stays_false (ps : List ℕ) (pj d : ℕ) (k : ℕ) (keep : List Bool) (m : ℕ)
    (h : keep.getD m false = false) : (clearLeft ps pj d k keep).getD m false = false := by
  cases hb : (clearLeft ps pj d k keep).getD m false
  · rfl
  · have := clearLeft_mono ps pj d k keep m hb
    rw [h] at this
    exact absurd this (by simp)

lemma clearRight_stays_false (ps : List ℕ) (pj d size fuel k : ℕ) (keep : List Bool) (m : ℕ)
    (h : keep.getD m false = false) :
    (clearRight ps pj d size fuel k keep).getD m false = false := by
  cases hb : (clearRight ps pj d size fuel k keep).getD m false
  · rfl
  · have := clearRight_mono ps pj d size fuel k keep m hb
    rw [h] at this
    exact absurd this (by simp)

lemma foldl_distStep_stays_false (ps : List ℕ) (d : ℕ) (order : List ℕ) (keep : List Bool)
    (m : ℕ) (h : keep.getD m false = false) :
    (order.foldl (distStep ps d) keep).getD m false = false := by
  cases hb : (order.foldl (distStep ps d) keep).getD m false
  · rfl
  · have := foldl_distStep_mono ps d order keep m hb
    rw [h] at this
    exact absurd this (by simp)

lemma clearLeft_clears (ps : List ℕ) (pj d : ℕ) :
    ∀ k (keep : List Bool) m, m ≤ k → pj - ps.getD m 0 < d →
      (∀ u v, u ≤ v → v ≤ k → ps.getD u 0 ≤ ps.getD v 0) →
      (clearLeft ps pj d k keep).getD m false = false := by
  intro k
  induction k with
  | zero =>
    intro keep m hm hnear hmono
    have hm0 : m = 0 := by omega
    subst hm0
    simp only [clearLeft]
    rw [if_pos hnear]
    exact getD_set_self_false keep 0
  | succ k ih =>
    intro keep m hm hnear hmono
    simp only [clearLeft]
    by_cases hc : pj - ps.getD (k + 1) 0 < d
    · rw [if_pos hc]
      rcases Nat.eq_or_lt_of_le hm with rfl | hmlt
      · exact clearLeft_stays_false ps pj d k _ (k + 1) (getD_set_self_false keep (k + 1))
      · exact ih _ m (by omega) hnear fun u v huv hvk => hmono u v huv (by omega)
    · rw [if_neg hc]
      exfalso
      have h1 : ps.getD m 0 ≤ ps.getD (k + 1) 0 := hmono m (k + 1) hm (le_refl _)
      omega

lemma clearRight_clears (ps : List ℕ) (pj d size : ℕ)
    (hmono : ∀ u v, u ≤ v → v < size → ps.getD u 0 ≤ ps.getD v 0) :
    ∀ fuel k (keep : List Bool) m, k ≤ m → m < size → m < k + fuel →
      ps.getD m 0 - pj < d →
      (clearRight ps pj d size fuel k keep).getD m false = false := by
  intro fuel
  induction fuel with
  | zero => intro k keep m hk hms hfuel hnear; omega
  | succ fuel ih =>
    intro k keep m hk hms hfuel hnear
    simp only [clearRight]
    by_cases hc : k < size ∧ ps.getD k 0 - pj < d
    · rw [if_pos hc]
      rcases Nat.eq_or_lt_of_le hk with heq | hklt
      · subst heq
        exact clearRight_stays_false ps pj d size fuel (k + 1) _ k (getD_set_self_false keep k)
      · exact ih (k + 1) _ m hklt hms (by omega) hnear
    · rw [if_neg hc]
      exfalso
      have hks : k < size := lt_of_le_of_lt hk hms
      have h2 : ¬ ps.getD k 0 - pj < d := fun hcc => hc ⟨hks, hcc⟩
      have h3 : ps.getD k 0 ≤ ps.getD m 0 := hmono k m hk hms
      omega

lemma distStep_clears (ps : List ℕ) (d : ℕ)
    (hsorted : ∀ u v, u < v → v < ps.length → ps.getD u 0 < ps.getD v 0)
    (keep : List Bool) (j m : ℕ) (hj : keep.getD j false = true)
    (hjlen : j < ps.length) (hm : m < ps.length) (hne : m ≠ j)
    (hnear1 : ps.getD j 0 - ps.getD m 0 < d) (hnear2 : ps.getD m 0 - ps.getD j 0 < d) :
    (distStep ps d keep j).getD m false = false := by
  have hmono : ∀ u v, u ≤ v → v < ps.length → ps.getD u 0 ≤ ps.getD v 0 := by
    intro u v huv hv
    rcases Nat.eq_or_lt_of_le huv with rfl | huv'
    · exact le_refl _
    · exact le_of_lt (hsorted u v huv' hv)
  unfold distStep
  rw [if_pos hj]
  rcases Nat.lt_or_ge m j with hmj | hmj
  · obtain ⟨j', rfl⟩ : ∃ j', j = j' + 1 := ⟨j - 1, by omega⟩
    apply clearRight_stays_false
    apply clearLeft_clears ps (ps.getD (j' + 1) 0) d j' keep m (by omega) hnear1
    intro u v huv hvk
    exact hmono u v huv (by omega)
  · have hmj' : j < m := by omega
    apply clearRight_clears ps (ps.getD j 0) d ps.length
      (fun u v huv hvs => hmono u v huv hvs) ps.length (j + 1) _ m (by omega) hm
      (by omega) hnear2

lemma process_gap (ps : List ℕ) (d : ℕ)
    (hsorted : ∀ u v, u < v → v < ps.length → ps.getD u 0 < ps.getD v 0) :
    ∀ (order : List ℕ) (keep : List Bool) (u v : ℕ),
      u ∈ order → v ∈ order → u ≠ v → u < ps.length → v < ps.length →
      (order.foldl (distStep ps d) keep).getD u false = true →
      (order.foldl (distStep ps d) keep).getD v false = true →
      ps.getD u 0 + d ≤ ps.getD v 0 ∨ ps.getD v 0 + d ≤ ps.getD u 0 := by
  intro order
  induction order with
  | nil => intro keep u v hu; exact absurd hu (List.not_mem_nil u)
  | cons o rest ih =>
    intro keep u v hu hv hne hup hvp hfu hfv
    rw [List.foldl_cons] at hfu hfv
    by_cases hfar : ps.getD u 0 + d ≤ ps.getD v 0 ∨ ps.getD v 0 + d ≤ ps.getD u 0
    · exact hfar
    push_neg at hfar
    obtain ⟨hn1, hn2⟩ := hfar
    exfalso
    rcases eq_or_ne o u with rfl | hou
    · have hku : keep.getD o false = true :=
        distStep_mono ps d keep o o (foldl_distStep_mono ps d rest _ o hfu)
      have hclear : (distStep ps d keep o).getD v false = false :=
        distStep_clears ps d hsorted keep o v hku hup hvp (Ne.symm hne)
          (by omega) (by omega)
      have := foldl_distStep_stays_false ps d rest _ v hclear
      rw [this] at hfv
      exact absurd hfv (by simp)
    rcases eq_or_ne o v with rfl | hov
    · have hkv : keep.getD o false = true :=
        distStep_mono ps d keep o o (foldl_distStep_mono ps d rest _ o hfv)
      have hclear : (distStep ps d keep o).getD u false = false :=
        distStep_clears ps d hsorted keep o u hkv hvp hup hne
          (by omega) (by omega)
      have := foldl_distStep_stays_false ps d rest _ u hclear
      rw [this] at hfu
      exact absurd hfu (by simp)
    · have hu' : u ∈ rest := by
        rcases List.mem_cons.mp hu with h | h
        · exact absurd h.symm hou
        · exact h
      have hv' : v ∈ rest := by
        rcases List.mem_cons.mp hv with h | h
        · exact absurd h.symm hov
        · exact h
      rcases ih (distStep ps d keep o) u v hu' hv' hne hup hvp hfu hfv with h | h
      · omega
      · omega

lemma mem_argInsert (priority : List α) (i : ℕ) (l : List ℕ) (j : ℕ) :
    j ∈ argInsert priority i l ↔ j = i ∨ j ∈ l := by
  induction l with
  | nil => simp [argInsert]
  | cons a rest ih =>
    simp only [argInsert]
    by_cases h : priority.getD i 0 ≤ priority.getD a 0
    · rw [if_pos h]
      simp [List.mem_cons]
    · rw [if_neg h]
      simp only [List.mem_cons, ih]
      tauto

lemma mem_argsort (priority : List α) (j : ℕ) :
    j ∈ argsort priority ↔ j < priority.length := by
  unfold argsort
  have key : ∀ (l : List ℕ) (acc : List ℕ),
      j ∈ l.foldr (argInsert priority) acc ↔ j ∈ l ∨ j ∈ acc := by
    intro l
    induction l with
    | nil => intro acc; simp
    | cons a rest ih =>
      intro acc
      rw [List.foldr_cons, mem_argInsert, ih]
      simp only [List.mem_cons]
      tauto
  rw [key (List.range priority.length) []]
  simp [List.mem_range]

lemma getD_mem_of_lt (l : List ℕ) (j : ℕ) (h : j < l.length) : l.getD j 0 ∈ l := by
  rw [List.getD_eq_getElem _ 0 h]
  exact List.getElem_mem h

lemma mem_selectByHeight (x : List α) (h : α) (ps : List ℕ) (p : ℕ) :
    p ∈ selectByHeight x h ps ↔ p ∈ ps ∧ h ≤ x.getD p 0 := by
  unfold selectByHeight
  rw [List.mem_filter, decide_eq_true_eq]

lemma selectByDistance_sound (x : List α) (ps : List ℕ) (d : ℕ)
    (hps : ps.Pairwise (· < ·)) :
    (∀ q ∈ selectByDistance x ps d, q ∈ ps) ∧
    (selectByDistance x ps d).Pairwise (fun a b => a + d ≤ b) := by
  have hsorted : ∀ u v, u < v → v < ps.length → ps.getD u 0 < ps.getD v 0 := by
    intro u v huv hv
    rw [List.getD_eq_getElem _ 0 (lt_trans huv hv), List.getD_eq_getElem _ 0 hv]
    exact List.pairwise_iff_getElem.mp hps u v _ _ huv
  have horder : ∀ j, j < ps.length →
      j ∈ (argsort (ps.map fun p => x.getD p 0)).reverse := by
    intro j hj
    rw [List.mem_reverse, mem_argsort]
    simpa using hj
  constructor
  · intro q hq
    unfold selectByDistance at hq
    rw [List.mem_map] at hq
    obtain ⟨j, hj, rfl⟩ := hq
    rw [List.mem_filter, List.mem_range] at hj
    exact getD_mem_of_lt ps j hj.1
  · unfold selectByDistance
    apply (List.pairwise_map).mpr
    have hfil : ((List.range ps.length).filter fun j =>
        (((argsort (ps.map fun p => x.getD p 0)).reverse).foldl (distStep ps d)
          (List.replicate ps.length true)).getD j false).Pairwise (· < ·) :=
      (List.pairwise_lt_range ps.length).filter _
    apply List.Pairwise.imp_of_mem ?_ hfil
    intro a b ha hb hab
    rw [List.mem_filter, List.mem_range] at ha hb
    rcases process_gap ps d hsorted _ _ a b (horder a ha.1) (horder b hb.1)
      (by omega) ha.1 hb.1 ha.2 hb.2 with h | h
    · exact h
    · exfalso
      have := hsorted a b hab hb.1
      omega

lemma find_peaks_sound (x : List α) (h : α) (d : ℕ) :
    (∀ p ∈ find_peaks x h d,
      (∃ l r, l ≤ p ∧ p ≤ r ∧ IsPlateauMax x l r) ∧ h ≤ x.getD p 0) ∧
    (find_peaks x h d).Pairwise (fun a b => a + d ≤ b) := by
  have hlm := localMaxima_sound x
  have hpair : (selectByHeight x h (localMaxima x)).Pairwise (· < ·) :=
    hlm.2.filter _
  have hsd := selectByDistance_sound x (selectByHeight x h (localMaxima x)) d hpair
  constructor
  · intro p hp
    have h1 := hsd.1 p hp
    rw [mem_selectByHeight] at h1
    exact ⟨hlm.1 p h1.1, h1.2⟩
  · exact hsd.2

/-- Claim C9: every peak index returned by `find_peaks_and_minima` is an
interior local maximum whose value meets the 0.1 height threshold, every
minimum index is an interior local maximum of the negated sequence,
consecutive indices in either list are at least 10 apart (so each list is
strictly ascending), and no index is reported both as a peak and as a
minimum. -/
theorem find_peaks_and_minima_spec (x : List α) :
    (∀ p ∈ (find_peaks_and_minima x).1,
      0 < p ∧ p + 1 < x.length ∧ x.getD (p - 1) 0 ≤ x.getD p 0 ∧
      x.getD (p + 1) 0 ≤ x.getD p 0 ∧ (1 : α) / 10 ≤ x.getD p 0) ∧
    (∀ p ∈ (find_peaks_and_minima x).2,
      0 < p ∧ p + 1 < x.length ∧ x.getD p 0 ≤ x.getD (p - 1) 0 ∧
      x.getD p 0 ≤ x.getD (p + 1) 0) ∧
    List.Chain' (fun a b => a + 10 ≤ b) (find_peaks_and_minima x).1 ∧
    List.Chain' (fun a b => a + 10 ≤ b) (find_peaks_and_minima x).2 ∧
    (∀ p ∈ (find_peaks_and_minima x).1, p ∉ (find_peaks_and_minima x).2) := by
  have hp := find_peaks_sound x ((1 : α) / 10) 10
  have hq := find_peaks_sound (x.map fun v => -v) (-(9 / 10 : α)) 10
  have hneg : ∀ k, k < x.length → (x.map fun v => -v).getD k 0 = -(x.getD k 0) := by
    intro k hk
    exact getD_map_general 0 0 _ x k hk
  refine ⟨?_, ?_, ?_, ?_, ?_⟩
  · intro p hmem
    obtain ⟨⟨l, r, hl, hr, hplat⟩, hh⟩ := hp.1 p hmem
    obtain ⟨h0, h1, h2, h3⟩ := plateau_neighbors x p l r hl hr hplat
    exact ⟨h0, h1, h2, h3, hh⟩
  · intro p hmem
    obtain ⟨⟨l, r, hl, hr, hplat⟩, hh⟩ := hq.1 p hmem
    obtain ⟨h0, h1, h2, h3⟩ := plateau_neighbors _ p l r hl hr hplat
    rw [List.length_map] at h1
    rw [hneg (p - 1) (by omega), hneg p (by omega)] at h2
    rw [hneg (p + 1) (by omega), hneg p (by omega)] at h3
    exact ⟨h0, h1, neg_le_neg_iff.mp h2, neg_le_neg_iff.mp h3⟩
  · exact List.Pairwise.chain' hp.2
  · exact List.Pairwise.chain' hq.2
  · intro p hmem hmem'
    obtain ⟨⟨l, r, hl, hr, hplat⟩, -⟩ := hp.1 p hmem
    obtain ⟨⟨l', r', hl', hr', hplat'⟩, -⟩ := hq.1 p hmem'
    exact plateau_disjoint x p l r l' r' hplat hl hr hplat' hl' hr'

/-- Claim C10: every index in the minima list of `find_peaks_and_minima` has
intensity at most 0.9, because the minima pass filters the negated signal
with the hardcoded height threshold -0.9. -/
theorem minima_height_bound (x : List α) (p : ℕ)
    (hp : p ∈ (find_peaks_and_minima x).2) :
    p < x.length ∧ x.getD p 0 ≤ 9 / 10 := by
  have hq := find_peaks_sound (x.map fun v => -v) (-(9 / 10 : α)) 10
  obtain ⟨⟨l, r, hl, hr, hplat⟩, hh⟩ := hq.1 p hp
  obtain ⟨-, h1, -, -⟩ := plateau_neighbors _ p l r hl hr hplat
  rw [List.length_map] at h1
  have hplen : p < x.length := by omega
  rw [getD_map_general 0 0 _ x p hplen] at hh
  exact ⟨hplen, neg_le_neg_iff.mp hh⟩

lemma peaks_eval : (find_peaks_and_minima ([0, 1, 0] : List ℚ)).1 = [1] := by
  norm_num [find_peaks_and_minima, find_peaks, selectByDistance, selectByHeight,
    localMaxima, localMaximaAux, plateauEnd, plateauEndAux, argsort, argInsert,
    distStep, clearLeft, clearRight, List.getD, List.range_succ, List.replicate]

lemma minima_eval : (find_peaks_and_minima ([1, 0, 1] : List ℚ)).2 = [1] := by
  norm_num [find_peaks_and_minima, find_peaks, selectByDistance, selectByHeight,
    localMaxima, localMaximaAux, plateauEnd, plateauEndAux, argsort, argInsert,
    distStep, clearLeft, clearRight, List.getD, List.range_succ, List.replicate]

/-- Witness for C9 on the rational signal `[0, 1, 0]`, whose peak list
is `[1]`. -/
theorem find_peaks_and_minima_spec_witness :
    1 ∈ (find_peaks_and_minima ([0, 1, 0] : List ℚ)).1 ∧
    (0 < 1 ∧ 1 + 1 < ([0, 1, 0] : List ℚ).length ∧
      ([0, 1, 0] : List ℚ).getD 0 0 ≤ ([0, 1, 0] : List ℚ).getD 1 0 ∧
      ([0, 1, 0] : List ℚ).getD 2 0 ≤ ([0, 1, 0] : List ℚ).getD 1 0 ∧
      (1 : ℚ) / 10 ≤ ([0, 1, 0] : List ℚ).getD 1 0) := by
  have hmem : 1 ∈ (find_peaks_and_minima ([0, 1, 0] : List ℚ)).1 := by
    rw [peaks_eval]
    simp
  have h := (find_peaks_and_minima_spec ([0, 1, 0] : List ℚ)).1 1 hmem
  exact ⟨hmem, h⟩

/-- Witness for C10 on the rational signal `[1, 0, 1]`, whose minima list
is `[1]`. -/
theorem minima_height_bound_witness :
    1 ∈ (find_peaks_and_minima ([1, 0, 1] : List ℚ)).2 ∧
    1 < ([1, 0, 1] : List ℚ).length ∧ ([1, 0, 1] : List ℚ).getD 1 0 ≤ 9 / 10 := by
  have hmem : 1 ∈ (find_peaks_and_minima ([1, 0, 1] : List ℚ)).2 := by
    rw [minima_eval]
    simp
  have h := minima_height_bound ([1, 0, 1] : List ℚ) 1 hmem
  exact ⟨hmem, h.1, h.2⟩

end AnalyzerLemmas

/- ------------------------------------------------------------------ -/
/- Claims C7 and C8                                                    -/
/- ------------------------------------------------------------------ -/

/-- Counterexample for C7 as stated: a spec-level `compare` on the
unequal-length pair `[1]`, `[1, 2]` fails with the LengthMismatchError, but
the code's `compare_with_theory` never receives a theoretical sequence: on
experimental data `[1]` it succeeds, regenerating a theoretical pattern of
length 1, so no length mismatch can ever arise and no such error exists. -/
theorem compare_length_mismatch_counterexample :
    compareSpec [1] [1, 2] = .error .lengthMismatch ∧
    (∃ theoretical result,
      compare_with_theory (some [(1:ℝ)]) (OpticalSetup.mk 1 1 1 1) 1 =
        .ok (theoretical, result) ∧
      theoretical.length = 1) := by
  constructor
  · rfl
  · obtain ⟨hok, hg, hI⟩ := simulate_ok (OpticalSetup.mk 1 1 1 1) 1 1 true (le_refl 1)
    have hcomp : compare_with_theory (some [(1:ℝ)]) (OpticalSetup.mk 1 1 1 1) 1 =
        (simulate_experiment (OpticalSetup.mk 1 1 1 1) 1 1 true).map fun yt =>
          (yt.2, ⟨corrcoef [(1:ℝ)] yt.2, rms_of [(1:ℝ)] yt.2,
            (find_peaks_and_minima [(1:ℝ)]).1, (find_peaks_and_minima yt.2).1,
            (find_peaks_and_minima [(1:ℝ)]).2, (find_peaks_and_minima yt.2).2⟩) := rfl
    rw [hok] at hcomp
    exact ⟨_, _, hcomp, hI⟩

/-- Claim C7, amended: `compare_with_theory` receives no independent
theoretical sequence; it regenerates the theoretical pattern at resolution
equal to the experimental length, so the two compared sequences always have
equal length, correlation and RMS error are always computed on equal-length
sequences, and no LengthMismatchError exists or can occur. -/
theorem compare_regenerates_matching_length (s : OpticalSetup) (w : ℝ) (e : List ℝ)
    (he : e ≠ []) :
    ∃ theoretical result,
      compare_with_theory (some e) s w = .ok (theoretical, result) ∧
      theoretical.length = e.length := by
  obtain ⟨hok, hg, hI⟩ := simulate_ok s w e.length true
    (by have := List.length_pos.mpr he; omega)
  have hcomp : compare_with_theory (some e) s w =
      (simulate_experiment s w e.length true).map fun yt =>
        (yt.2, ⟨corrcoef e yt.2, rms_of e yt.2,
          (find_peaks_and_minima e).1, (find_peaks_and_minima yt.2).1,
          (find_peaks_and_minima e).2, (find_peaks_and_minima yt.2).2⟩) := rfl
  rw [hok] at hcomp
  exact ⟨_, _, hcomp, hI⟩

/-- Witness for C7 (amended) on the one-sample experimental sequence `[1]`. -/
theorem compare_regenerates_matching_length_witness :
    ([(1:ℝ)] ≠ []) ∧
    ∃ theoretical result,
      compare_with_theory (some [(1:ℝ)]) (OpticalSetup.mk 1 1 1 1) 1 =
        .ok (theoretical, result) ∧
      theoretical.length = [(1:ℝ)].length :=
  ⟨by simp, compare_regenerates_matching_length (OpticalSetup.mk 1 1 1 1) 1 [(1:ℝ)] (by simp)⟩

/-- Counterexample for C8 as stated: with an empty experimental sequence the
call does fail, but with the zero-size-reduction `ValueError` coming from
`np.max` of an empty array, not with the no-data error (the code's
`NoDataError`), because an empty array is not `None`. -/
theorem compare_empty_error_counterexample :
    compare_with_theory (some []) (OpticalSetup.mk 1 1 1 1) 1 = .error .zeroSizeReduction ∧
    PyErr.zeroSizeReduction ≠ PyErr.noExperimentalData :=
  ⟨rfl, fun h => PyErr.noConfusion h⟩

/-- Claim C8, amended: when no experimental data has been loaded,
`compare_with_theory` fails with the no-data error and produces no result;
when the experimental sequence is empty the no-data guard does not fire and
the call still fails and produces no comparison result, but with the
zero-size-reduction error raised by taking the max of an empty array. -/
theorem compare_no_data_behavior (s : OpticalSetup) (w : ℝ) :
    compare_with_theory none s w = .error .noExperimentalData ∧
    compare_with_theory (some []) s w = .error .zeroSizeReduction :=
  ⟨rfl, rfl⟩

end DoubleSlit
